import Mathlib

/-!
Verification of the text-normalisation tool in `tools/normalize_original.py`
and its configuration helper `tools/config.py`.

Strings are modelled as lists of Unicode code points (`List Nat`), matching
Python `str` semantics where `len` counts code points.  The library calls
`unicodedata.normalize("NFKC", -)` and `unicodedata.name` are modelled by the
standard UAX 15 algorithm instantiated with an explicit fragment of the
Unicode Character Database that covers every code point appearing in the
claims; all code points outside the fragment carry no decomposition, no name,
combining class 0 and no composition, exactly as the real database treats the
unassigned and inert code points among them.
-/

/-- Fragment of the Unicode decomposition mappings (canonical and
compatibility), stored fully decomposed as UAX 15 permits.  Covers the code
points used by the claims: the compatibility decompositions of the ideographic
space, no-break space, fullwidth tilde and fullwidth hyphen-minus, and the
canonical decomposition of U+00E9. -/
def decompositionMapping (c : Nat) : Option (List Nat) :=
  if c = 0x3000 then some [0x20]
  else if c = 0xA0 then some [0x20]
  else if c = 0xFF5E then some [0x7E]
  else if c = 0xFF0D then some [0x2D]
  else if c = 0xE9 then some [0x65, 0x301]
  else none

/-- Fragment of the canonical combining class table: U+0301 has class 230,
every other code point of the fragment has class 0. -/
def canonicalCombiningClass (c : Nat) : Nat :=
  if c = 0x301 then 230 else 0

/-- Fragment of the canonical composition pairs: LATIN SMALL LETTER E followed
by COMBINING ACUTE ACCENT composes to U+00E9. -/
def canonicalComposition (a b : Nat) : Option Nat :=
  if a = 0x65 ∧ b = 0x301 then some 0xE9 else none

/-- Full decomposition step of NFKC: replace every code point by its (already
fully decomposed) decomposition mapping. -/
def decomposeAll (l : List Nat) : List Nat :=
  l.flatMap (fun c => (decompositionMapping c).getD [c])

/-- Stable sort of a run of combining marks by canonical combining class. -/
def sortRun (run : List Nat) : List Nat :=
  run.insertionSort (fun a b => canonicalCombiningClass a ≤ canonicalCombiningClass b)

/-- Worker of the canonical ordering algorithm: `acc` holds the reversed
current run of code points with nonzero combining class. -/
def canonicalOrderGo (acc : List Nat) : List Nat → List Nat
  | [] => sortRun acc.reverse
  | c :: rest =>
    if canonicalCombiningClass c = 0 then
      sortRun acc.reverse ++ c :: canonicalOrderGo [] rest
    else
      canonicalOrderGo (c :: acc) rest

/-- Canonical ordering algorithm of UAX 15: every maximal run of code points
with nonzero combining class is stably sorted by combining class. -/
def canonicalOrder (l : List Nat) : List Nat :=
  canonicalOrderGo [] l

/-- Canonical composition loop of UAX 15.  The first argument is the last
starter, the second the not yet emitted code points following it (all of
nonzero combining class, in canonical order), the third the remaining input. -/
def recompose (starter : Nat) (pending : List Nat) : List Nat → List Nat
  | [] => starter :: pending
  | c :: rest =>
    if canonicalCombiningClass c = 0 then
      match (if pending.isEmpty then canonicalComposition starter c else none) with
      | some d => recompose d [] rest
      | none => (starter :: pending) ++ recompose c [] rest
    else
      if pending.getLast?.all (fun p => canonicalCombiningClass p < canonicalCombiningClass c) then
        match canonicalComposition starter c with
        | some d => recompose d pending rest
        | none => recompose starter (pending ++ [c]) rest
      else
        recompose starter (pending ++ [c]) rest

/-- Compose a canonically ordered list; code points before the first starter
are passed through unchanged. -/
def composeList : List Nat → List Nat
  | [] => []
  | c :: rest =>
    if canonicalCombiningClass c = 0 then recompose c [] rest
    else c :: composeList rest

/-- Model of `unicodedata.normalize("NFKC", content)`: full decomposition,
canonical ordering, canonical composition, over the database fragment. -/
def nfkc (l : List Nat) : List Nat :=
  composeList (canonicalOrder (decomposeAll l))

/-- The fixed substitution table `COMPATIBILITY_TRANSLATION` of
`normalize_original.py`, as the association list built by `str.maketrans`. -/
def COMPATIBILITY_TRANSLATION : List (Nat × Nat) :=
  [(0x3000, 0x20), (0x2014, 0x2D), (0x2013, 0x2D), (0xA0, 0x20), (0xFF5E, 0x7E),
   (0xFF0D, 0x2D), (0x2018, 0x27), (0x2019, 0x27), (0x201C, 0x22), (0x201D, 0x22)]

/-- Application of the translation table to one code point, as `str.translate`
does: mapped code points are replaced, all others are kept. -/
def translateChar (c : Nat) : Nat :=
  (COMPATIBILITY_TRANSLATION.lookup c).getD c

/-- Model of `normalized.translate(COMPATIBILITY_TRANSLATION)`. -/
def translateStr (l : List Nat) : List Nat :=
  l.map translateChar

/-- The marker substring tested by `_is_variation_selector`. -/
def vsMarker : String := "VARIATION SELECTOR"

/-- Name stem of the Mongolian free variation selectors. -/
def mongolianVS : String := "MONGOLIAN FREE VARIATION SELECTOR-"

/-- Name stem of the variation selectors proper. -/
def plainVS : String := "VARIATION SELECTOR-"

/-- Model of `unicodedata.name(ch, "")` on the database fragment: the real
names of every code point whose name contains the marker substring (the
Mongolian free variation selectors U+180B..U+180D and U+180F and the variation
selectors U+FE00..U+FE0F and U+E0100..U+E01EF), the real names of the few
other code points used by the claims, and the default empty string elsewhere;
in particular every unnamed code point yields the empty string. -/
def unicodeName (c : Nat) : String :=
  if 0x180B ≤ c ∧ c ≤ 0x180D then mongolianVS ++ Nat.repr (c - 0x180B + 1)
  else if c = 0x180F then mongolianVS ++ Nat.repr 4
  else if 0xFE00 ≤ c ∧ c ≤ 0xFE0F then plainVS ++ Nat.repr (c - 0xFE00 + 1)
  else if 0xE0100 ≤ c ∧ c ≤ 0xE01EF then plainVS ++ Nat.repr (c - 0xE0100 + 17)
  else if c = 0x2764 then "HEAVY BLACK HEART"
  else if c = 0x65 then "LATIN SMALL LETTER E"
  else if c = 0xE9 then "LATIN SMALL LETTER E WITH ACUTE"
  else if c = 0x301 then "COMBINING ACUTE ACCENT"
  else ""

/-- Containment of a pattern as a contiguous substring, on char lists. -/
def listContains (pat : List Char) : List Char → Bool
  | [] => pat.isEmpty
  | c :: tl => pat.isPrefixOf (c :: tl) || listContains pat tl

/-- Model of `_is_variation_selector`: the marker substring occurs in the
character name, with the empty string as default for unnamed code points. -/
def is_variation_selector (c : Nat) : Bool :=
  listContains vsMarker.toList (unicodeName c).toList

/-- The generator-expression clean-up step of `normalise_text`: drop every
variation selector. -/
def removeVariationSelectors (l : List Nat) : List Nat :=
  l.filter (fun c => ! is_variation_selector c)

/-- Model of `normalise_text`: NFKC normalisation, then the substitution
table, then variation-selector removal. -/
def normalise_text (content : List Nat) : List Nat :=
  removeVariationSelectors (translateStr (nfkc content))

/-- Strict lexicographic comparison of char lists by code point, the order
Python uses on `str`. -/
def charsLtB : List Char → List Char → Bool
  | [], [] => false
  | [], _ :: _ => true
  | _ :: _, [] => false
  | a :: as, b :: bs => if a < b then true else if a = b then charsLtB as bs else false

/-- Strict comparison of strings by code point, as in Python. -/
def strLt (a b : String) : Bool :=
  charsLtB a.toList b.toList

/-- Reflexive comparison of strings by code point. -/
def strLe (a b : String) : Bool :=
  strLt a b || a = b

/-- Lexicographic comparison of path-segment lists with string components,
the order `sorted` uses on `Path` objects (CPython compares the tuples of
parts of the two paths). -/
def partsLeB : List String → List String → Bool
  | [], _ => true
  | _ :: _, [] => false
  | a :: as, b :: bs => if strLt a b then true else if a = b then partsLeB as bs else false

/-- Propositional form of `partsLeB`, used as the sorting relation. -/
def partsLe (a b : List String) : Prop :=
  partsLeB a b = true

instance : DecidableRel partsLe :=
  fun a b => inferInstanceAs (Decidable (_ = true))

/-- Path separator of the rendered path string. -/
def sep : String := "/"

/-- Rendering of a segment list as the full path string, as `str` on a path
object does. -/
def pathStr (p : List String) : String :=
  String.intercalate sep p

/-- Comparison of paths by their full path string. -/
def fullPathLe (a b : List String) : Prop :=
  strLe (pathStr a) (pathStr b) = true

instance : DecidableRel fullPathLe :=
  fun a b => inferInstanceAs (Decidable (_ = true))

/-- Kind of a filesystem entry: regular file or directory. -/
inductive FileKind where
  | regular : FileKind
  | directory : FileKind
deriving DecidableEq

/-- One filesystem entry.  `content` is `some` list of code points when the
entry is a regular file that can be read and decoded under the configured
encoding, and `none` for directories and for files whose read raises. -/
structure FsEntry where
  path : List String
  kind : FileKind
  content : Option (List Nat)
deriving DecidableEq

/-- Model of `NormalizeOriginalConfig` of `tools/config.py`; paths are
segment lists and the encoding is carried opaquely. -/
structure NormalizeOriginalConfig where
  source_dir : List String
  output_dir : List String
  report_path : List String
  encoding : String
deriving DecidableEq

/-- Parent of a path, as `Path.parent`. -/
def dirParent (p : List String) : List String :=
  p.dropLast

/-- The directories created by `ensure_directories`: the output directory and
the parent of the report path, each with missing ancestors. -/
def ensure_directories (cfg : NormalizeOriginalConfig) : List (List String) :=
  [cfg.output_dir, dirParent cfg.report_path]

/-- The extension pattern handed to `rglob`. -/
def txtExt : String := ".txt"

/-- Final name component of a path. -/
def lastName (p : List String) : String :=
  p.getLastD ""

/-- Match of the glob pattern `*.txt` against one name component: the name
ends in the extension (the star may match the empty string). -/
def endsWithTxt (name : String) : Bool :=
  List.isSuffixOf txtExt.toList name.toList

/-- Model of `source_dir.rglob("*.txt")`: every entry strictly below the
source directory whose final name matches the pattern, directories included. -/
def rglobTxt (fs : List FsEntry) (src : List String) : List FsEntry :=
  fs.filter (fun e =>
    List.isPrefixOf src e.path && decide (e.path ≠ src) && endsWithTxt (lastName e.path))

/-- Model of `gather_files`: the regular files among the `rglob` matches,
sorted in path order. -/
def gather_files (fs : List FsEntry) (src : List String) : List (List String) :=
  List.insertionSort partsLe
    (((rglobTxt fs src).filter (fun e => decide (e.kind = FileKind.regular))).map FsEntry.path)

/-- Model of `path.read_text(encoding=cfg.encoding)`: the content of the
regular file at the path, or `none` when the read raises. -/
def readText (fs : List FsEntry) (p : List String) : Option (List Nat) :=
  (fs.find? (fun e => decide (e.path = p ∧ e.kind = FileKind.regular))).bind FsEntry.content

/-- Model of `FileReport`. -/
structure FileReport where
  path : String
  changed : Bool
  characters_before : Nat
  characters_after : Nat
deriving DecidableEq

/-- Model of `RunReport`. -/
structure RunReport where
  source_dir : String
  output_dir : String
  dry_run : Bool
  files : List FileReport
deriving DecidableEq

/-- Model of `path.relative_to(cfg.source_dir)` for a path below the source
directory. -/
def relative_to (base p : List String) : List String :=
  p.drop base.length

instance {α β : Type} [DecidableEq α] [DecidableEq β] : DecidableEq (Except α β) :=
  fun a b =>
    match a, b with
    | Except.error x, Except.error y =>
      if h : x = y then isTrue (by rw [h]) else isFalse (by intro hc; cases hc; exact h rfl)
    | Except.ok x, Except.ok y =>
      if h : x = y then isTrue (by rw [h]) else isFalse (by intro hc; cases hc; exact h rfl)
    | Except.error _, Except.ok _ => isFalse (fun hc => Except.noConfusion hc)
    | Except.ok _, Except.error _ => isFalse (fun hc => Except.noConfusion hc)

/-- Observable outcome of the batch loop of `process_files`: the paths read
(in order, the failing one included), the files written (path and content, in
order), and either the per-file reports or the path whose read raised. -/
structure ProcOutcome where
  reads : List (List String)
  writes : List (List String × List Nat)
  result : Except (List String) (List FileReport)
deriving DecidableEq

/-- Batch loop of `process_files` over the file list: read, normalise,
record a report entry, and (outside dry-run) write the normalised text to the
output directory under the file's relative path; a failing read aborts the
loop. -/
def processFilesGo (fs : List FsEntry) (cfg : NormalizeOriginalConfig) (dry_run : Bool) :
    List (List String) → ProcOutcome
  | [] => ⟨[], [], Except.ok []⟩
  | p :: rest =>
    match readText fs p with
    | none => ⟨[p], [], Except.error p⟩
    | some original =>
      let normalized := normalise_text original
      let rep : FileReport :=
        ⟨pathStr (relative_to cfg.source_dir p), decide (normalized ≠ original),
          original.length, normalized.length⟩
      let w : List (List String × List Nat) :=
        if dry_run then [] else [(cfg.output_dir ++ relative_to cfg.source_dir p, normalized)]
      let r := processFilesGo fs cfg dry_run rest
      ⟨p :: r.reads, w ++ r.writes,
        match r.result with
        | Except.ok reps => Except.ok (rep :: reps)
        | Except.error e => Except.error e⟩

/-- Model of `process_files`. -/
def process_files (files : List (List String)) (fs : List FsEntry)
    (cfg : NormalizeOriginalConfig) (dry_run : Bool) : ProcOutcome :=
  processFilesGo fs cfg dry_run files

/-- The `RunReport` value assembled at the end of `process_files`. -/
def runReportOf (cfg : NormalizeOriginalConfig) (dry_run : Bool)
    (reports : List FileReport) : RunReport :=
  ⟨pathStr cfg.source_dir, pathStr cfg.output_dir, dry_run, reports⟩

/-- Minimal JSON value universe for the report payload. -/
inductive JsonVal where
  | str : String → JsonVal
  | num : Nat → JsonVal
  | bool : Bool → JsonVal
  | arr : List JsonVal → JsonVal
  | obj : List (String × JsonVal) → JsonVal

/-- Serialisation of one `FileReport` as `dataclasses.asdict` renders it. -/
def fileReportJson (r : FileReport) : JsonVal :=
  JsonVal.obj [("path", JsonVal.str r.path), ("changed", JsonVal.bool r.changed),
    ("characters_before", JsonVal.num r.characters_before),
    ("characters_after", JsonVal.num r.characters_after)]

/-- Model of the payload dictionary built by `write_report` and serialised to
the report file. -/
def write_report_payload (report : RunReport) : JsonVal :=
  JsonVal.obj [("source_dir", JsonVal.str report.source_dir),
    ("output_dir", JsonVal.str report.output_dir),
    ("dry_run", JsonVal.bool report.dry_run),
    ("files", JsonVal.arr (report.files.map fileReportJson))]

/-- Field access on the parsed report: the `files` array of the payload. -/
def jsonFilesField : JsonVal → Option (List JsonVal)
  | JsonVal.obj kvs =>
    match kvs.lookup "files" with
    | some (JsonVal.arr xs) => some xs
    | _ => none
  | _ => none

/-- Whitespace test for `str.strip()`, on the ASCII whitespace fragment. -/
def isSpaceChar (c : Char) : Bool :=
  decide (c = ' ' ∨ c = '\t' ∨ c = '\n' ∨ c = '\r' ∨ c = '\x0b' ∨ c = '\x0c')

/-- Model of `str.strip()`: drop leading and trailing whitespace. -/
def trimChars (l : List Char) : List Char :=
  ((l.dropWhile isSpaceChar).reverse.dropWhile isSpaceChar).reverse

/-- Model of `str.lower()` on the ASCII fragment of the case mapping. -/
def lowerChar (c : Char) : Char :=
  if decide (c.toNat ≥ 65 ∧ c.toNat ≤ 90) then Char.ofNat (c.toNat + 32) else c

/-- Model of `prompt_yes_no` applied to one line of console input: strip and
lowercase the answer, return the default on an empty answer, otherwise accept
exactly the answers y and yes. -/
def prompt_yes_no (answer : String) (default : Bool) : Bool :=
  let normalized := (trimChars answer.toList).map lowerChar
  if normalized = [] then default
  else decide (normalized = "y".toList ∨ normalized = "yes".toList)

/-- Cancellation condition of the interactive mode: the first prompt was
answered no. -/
def cancelledRun (interactive : Bool) (stdin : List String) : Bool :=
  interactive && ! prompt_yes_no (stdin.getD 0 "") true

/-- Existence test `cfg.source_dir.exists()` in the filesystem model. -/
def pathExists (fs : List FsEntry) (p : List String) : Bool :=
  fs.any (fun e => decide (e.path = p))

/-- Directory test `cfg.source_dir.is_dir()` in the filesystem model. -/
def isDirAt (fs : List FsEntry) (p : List String) : Bool :=
  fs.any (fun e => decide (e.path = p ∧ e.kind = FileKind.directory))

/-- The combined check `cfg.source_dir.exists() and cfg.source_dir.is_dir()`. -/
def sourceDirOk (fs : List FsEntry) (p : List String) : Bool :=
  pathExists fs p && isDirAt fs p

/-- The dry-run flag `main` hands to `process_files`: in interactive mode the
second prompt (defaulting to the flag) decides, otherwise the flag itself. -/
def effectiveDry (interactive dryArg : Bool) (stdin : List String) : Bool :=
  if interactive then prompt_yes_no (stdin.getD 1 "") dryArg else dryArg

/-- Observable outcome of one invocation of `main`: exit code, directories
created, paths read, files written, report payload written (if any), and the
exception terminating the run (if any). -/
structure MainResult where
  exitCode : Nat
  createdDirs : List (List String)
  reads : List (List String)
  writes : List (List String × List Nat)
  report : Option JsonVal
  raised : Option (List String)

/-- Model of `main` from the point where the configuration is resolved:
`ensure_directories`, the optional interactive prompts, the source-directory
check, discovery, the batch run and the report write.  Console input is the
list of lines `stdin`; a missing line reads as empty, which both prompts
answer with their default. -/
def mainModel (cfg : NormalizeOriginalConfig) (interactive dryArg : Bool)
    (stdin : List String) (fs : List FsEntry) : MainResult :=
  let created := ensure_directories cfg
  if cancelledRun interactive stdin then
    ⟨0, created, [], [], none, none⟩
  else
    let dry_run := effectiveDry interactive dryArg stdin
    if ! sourceDirOk fs cfg.source_dir then
      ⟨1, created, [], [], none, none⟩
    else
      let files := gather_files fs cfg.source_dir
      if files.isEmpty then
        ⟨0, created, [], [], none, none⟩
      else
        let out := process_files files fs cfg dry_run
        match out.result with
        | Except.error p => ⟨1, created, out.reads, out.writes, none, some p⟩
        | Except.ok reports =>
          ⟨0, created, out.reads, out.writes,
            some (write_report_payload (runReportOf cfg dry_run reports)), none⟩

/-- The ten source code points of the substitution table. -/
def tenSources : List Nat :=
  [0x3000, 0x2014, 0x2013, 0xA0, 0xFF5E, 0xFF0D, 0x2018, 0x2019, 0x201C, 0x201D]

theorem lookup_eq_none_of_not_mem_tenSources {c : Nat} (hc : c ∉ tenSources) :
    COMPATIBILITY_TRANSLATION.lookup c = none := by
  simp only [tenSources, List.mem_cons, List.not_mem_nil, or_false, not_or] at hc
  obtain ⟨h1, h2, h3, h4, h5, h6, h7, h8, h9, h10⟩ := hc
  simp [COMPATIBILITY_TRANSLATION, List.lookup, beq_eq_false_iff_ne.mpr h1,
    beq_eq_false_iff_ne.mpr h2, beq_eq_false_iff_ne.mpr h3, beq_eq_false_iff_ne.mpr h4,
    beq_eq_false_iff_ne.mpr h5, beq_eq_false_iff_ne.mpr h6, beq_eq_false_iff_ne.mpr h7,
    beq_eq_false_iff_ne.mpr h8, beq_eq_false_iff_ne.mpr h9, beq_eq_false_iff_ne.mpr h10]

theorem translateChar_eq_self_of_lookup_none {c : Nat}
    (h : COMPATIBILITY_TRANSLATION.lookup c = none) : translateChar c = c := by
  simp [translateChar, h]

theorem translateChar_not_mem_tenSources (c : Nat) : translateChar c ∉ tenSources := by
  by_cases hc : c ∈ tenSources
  · simp only [tenSources, List.mem_cons, List.not_mem_nil, or_false] at hc
    rcases hc with rfl | rfl | rfl | rfl | rfl | rfl | rfl | rfl | rfl | rfl <;> decide
  · rw [translateChar_eq_self_of_lookup_none (lookup_eq_none_of_not_mem_tenSources hc)]
    exact hc

theorem mem_translateStr {c : Nat} {l : List Nat} (h : c ∈ translateStr l) :
    ∃ a ∈ l, c = translateChar a := by
  obtain ⟨a, ha, rfl⟩ := List.mem_map.mp h
  exact ⟨a, ha, rfl⟩

theorem mem_of_mem_removeVariationSelectors {c : Nat} {l : List Nat}
    (h : c ∈ removeVariationSelectors l) : c ∈ l :=
  List.mem_of_mem_filter h

theorem not_vs_of_mem_removeVariationSelectors {c : Nat} {l : List Nat}
    (h : c ∈ removeVariationSelectors l) : is_variation_selector c = false := by
  have := List.of_mem_filter h
  simpa using this

theorem normalise_text_not_mem_tenSources {c : Nat} {T : List Nat}
    (h : c ∈ normalise_text T) : c ∉ tenSources := by
  obtain ⟨a, _, rfl⟩ := mem_translateStr (mem_of_mem_removeVariationSelectors h)
  exact translateChar_not_mem_tenSources a

theorem translateStr_eq_self {l : List Nat}
    (h : ∀ c ∈ l, COMPATIBILITY_TRANSLATION.lookup c = none) : translateStr l = l := by
  induction l with
  | nil => rfl
  | cons a tl ih =>
    simp only [translateStr, List.map_cons]
    rw [show translateChar a = a from
        translateChar_eq_self_of_lookup_none (h a (List.mem_cons_self a tl))]
    have := ih (fun c hc => h c (List.mem_cons_of_mem a hc))
    simpa [translateStr] using this

theorem removeVariationSelectors_eq_self {l : List Nat}
    (h : ∀ c ∈ l, is_variation_selector c = false) : removeVariationSelectors l = l := by
  apply List.filter_eq_self.mpr
  intro a ha
  simp [h a ha]

/-- CLAIM C1 (amended): `normalise_text` is idempotent on every input whose
once-normalised form is NFKC-stable: if `nfkc (normalise_text T) =
normalise_text T`, then a second application of `normalise_text` changes
nothing, because the once-normalised text contains no source code point of
the substitution table and no variation selector.  The unconditional claim is
false: removing a variation selector can expose a new composition pair to the
NFKC pass of the second application (see the counterexample). -/
theorem normalise_text_idempotent_on_stable (T : List Nat)
    (h : nfkc (normalise_text T) = normalise_text T) :
    normalise_text (normalise_text T) = normalise_text T := by
  conv_lhs => rw [normalise_text]
  rw [h]
  rw [translateStr_eq_self (fun c hc =>
    lookup_eq_none_of_not_mem_tenSources (normalise_text_not_mem_tenSources hc))]
  exact removeVariationSelectors_eq_self
    (fun c hc => not_vs_of_mem_removeVariationSelectors hc)

/-- Witness for CLAIM C1: the hypothesis and the conclusion hold at the
concrete input consisting of the single letter a. -/
theorem normalise_text_idempotent_on_stable_witness :
    nfkc (normalise_text [0x61]) = normalise_text [0x61] ∧
      normalise_text (normalise_text [0x61]) = normalise_text [0x61] :=
  ⟨by decide, normalise_text_idempotent_on_stable [0x61] (by decide)⟩

/-- Counterexample for CLAIM C1 as stated: on the input e, VARIATION
SELECTOR-16, COMBINING ACUTE ACCENT, the first application yields e followed
by the combining accent (NFKC leaves the input unchanged because the blocked
accent cannot compose across the selector, and the clean-up then deletes the
selector), while the second application composes the now adjacent pair to
U+00E9, so applying the transform twice differs from applying it once. -/
theorem normalise_text_not_idempotent :
    normalise_text (normalise_text [0x65, 0xFE0F, 0x301]) ≠
      normalise_text [0x65, 0xFE0F, 0x301] := by
  decide

/-- CLAIM C2: for each of the ten mapped pairs of the substitution table, the
transform applied to the one-code-point string holding the source yields a
string containing the replacement and not the source; and no output of
`normalise_text` contains any of the ten source code points. -/
theorem substitution_table_coverage :
    ((0x20 ∈ normalise_text [0x3000] ∧ 0x3000 ∉ normalise_text [0x3000]) ∧
     (0x2D ∈ normalise_text [0x2014] ∧ 0x2014 ∉ normalise_text [0x2014]) ∧
     (0x2D ∈ normalise_text [0x2013] ∧ 0x2013 ∉ normalise_text [0x2013]) ∧
     (0x20 ∈ normalise_text [0xA0] ∧ 0xA0 ∉ normalise_text [0xA0]) ∧
     (0x7E ∈ normalise_text [0xFF5E] ∧ 0xFF5E ∉ normalise_text [0xFF5E]) ∧
     (0x2D ∈ normalise_text [0xFF0D] ∧ 0xFF0D ∉ normalise_text [0xFF0D]) ∧
     (0x27 ∈ normalise_text [0x2018] ∧ 0x2018 ∉ normalise_text [0x2018]) ∧
     (0x27 ∈ normalise_text [0x2019] ∧ 0x2019 ∉ normalise_text [0x2019]) ∧
     (0x22 ∈ normalise_text [0x201C] ∧ 0x201C ∉ normalise_text [0x201C]) ∧
     (0x22 ∈ normalise_text [0x201D] ∧ 0x201D ∉ normalise_text [0x201D])) ∧
    ∀ (T : List Nat) (c : Nat), c ∈ normalise_text T → c ∉ tenSources :=
  ⟨by decide, fun _ _ h => normalise_text_not_mem_tenSources h⟩

/-- Witness for CLAIM C2: the universal part applied to the concrete output
code point of the concrete input U+3000. -/
theorem substitution_table_coverage_witness :
    0x20 ∈ normalise_text [0x3000] ∧ 0x20 ∉ tenSources :=
  ⟨by decide, substitution_table_coverage.2 [0x3000] 0x20 (by decide)⟩

/-- CLAIM C3: the clean-up step removes exactly the characters whose Unicode
name contains the substring VARIATION SELECTOR — deleting each such
character while leaving the surrounding characters unchanged — keeps every
character with no registered name, and in particular strips U+FE0F; the whole
transform maps the heavy-black-heart-plus-selector example to the bare
heart. -/
theorem variation_selector_removal :
    (∀ (xs : List Nat) (c : Nat) (ys : List Nat), is_variation_selector c = true →
      removeVariationSelectors (xs ++ c :: ys) =
        removeVariationSelectors xs ++ removeVariationSelectors ys) ∧
    (∀ (xs : List Nat) (c : Nat) (ys : List Nat), is_variation_selector c = false →
      removeVariationSelectors (xs ++ c :: ys) =
        removeVariationSelectors xs ++ c :: removeVariationSelectors ys) ∧
    (∀ c : Nat, unicodeName c = "" → is_variation_selector c = false) ∧
    is_variation_selector 0xFE0F = true ∧
    normalise_text [0x2764, 0xFE0F] = [0x2764] := by
  refine ⟨?_, ?_, ?_, by decide, by decide⟩
  · intro xs c ys h
    simp [removeVariationSelectors, List.filter_append, h]
  · intro xs c ys h
    simp [removeVariationSelectors, List.filter_append, h]
  · intro c h
    simp only [is_variation_selector, h]
    decide

theorem processFilesGo_cons_none {fs : List FsEntry} {cfg : NormalizeOriginalConfig}
    {dry : Bool} {p : List String} {rest : List (List String)}
    (hr : readText fs p = none) :
    processFilesGo fs cfg dry (p :: rest) = ⟨[p], [], Except.error p⟩ := by
  simp [processFilesGo, hr]

theorem processFilesGo_cons_some {fs : List FsEntry} {cfg : NormalizeOriginalConfig}
    {dry : Bool} {p : List String} {rest : List (List String)} {c : List Nat}
    (hr : readText fs p = some c) :
    processFilesGo fs cfg dry (p :: rest) =
      ⟨p :: (processFilesGo fs cfg dry rest).reads,
        (if dry then []
          else [(cfg.output_dir ++ relative_to cfg.source_dir p, normalise_text c)]) ++
          (processFilesGo fs cfg dry rest).writes,
        match (processFilesGo fs cfg dry rest).result with
        | Except.ok reps =>
          Except.ok (FileReport.mk (pathStr (relative_to cfg.source_dir p))
            (decide (normalise_text c ≠ c)) c.length (normalise_text c).length :: reps)
        | Except.error e => Except.error e⟩ := by
  simp [processFilesGo, hr]

theorem processFilesGo_ok_forall2 (fs : List FsEntry) (cfg : NormalizeOriginalConfig)
    (dry : Bool) :
    ∀ (files : List (List String)) (reports : List FileReport),
      (processFilesGo fs cfg dry files).result = Except.ok reports →
      List.Forall₂ (fun p r => ∃ c, readText fs p = some c ∧
        r = FileReport.mk (pathStr (relative_to cfg.source_dir p))
          (decide (normalise_text c ≠ c)) c.length (normalise_text c).length)
        files reports := by
  intro files
  induction files with
  | nil =>
    intro reports h
    simp only [processFilesGo] at h
    cases h
    exact List.Forall₂.nil
  | cons p rest ih =>
    intro reports h
    cases hr : readText fs p with
    | none => rw [processFilesGo_cons_none hr] at h; simp at h
    | some c =>
      rw [processFilesGo_cons_some hr] at h
      simp only at h
      split at h
      · rename_i reps hres
        simp only [Except.ok.injEq] at h
        rw [← h]
        exact List.Forall₂.cons ⟨c, hr, rfl⟩ (ih reps hres)
      · simp at h

theorem jsonFilesField_payload (R : RunReport) :
    jsonFilesField (write_report_payload R) = some (R.files.map fileReportJson) := rfl

/-- CLAIM C4: whenever the batch run succeeds, the report entries correspond
one to one, in order, to the processed files; the entry of a file with
content `c` records `changed` exactly when `normalise_text c` differs from
`c` and the code-point counts of the content before and after the transform
(so an unchanged file yields `changed = false` and equal counts), and the
serialised report payload carries exactly these entries, one per file. -/
theorem process_files_report_entries (fs : List FsEntry) (cfg : NormalizeOriginalConfig)
    (dry : Bool) (files : List (List String)) (reports : List FileReport)
    (h : (process_files files fs cfg dry).result = Except.ok reports) :
    List.Forall₂ (fun p r => ∃ c, readText fs p = some c ∧
      r.path = pathStr (relative_to cfg.source_dir p) ∧
      r.changed = decide (normalise_text c ≠ c) ∧
      r.characters_before = c.length ∧
      r.characters_after = (normalise_text c).length ∧
      (normalise_text c = c → r.changed = false ∧ r.characters_before = r.characters_after))
      files reports ∧
    jsonFilesField (write_report_payload (runReportOf cfg dry reports)) =
      some (reports.map fileReportJson) ∧
    reports.length = files.length := by
  have hf := processFilesGo_ok_forall2 fs cfg dry files reports h
  refine ⟨hf.imp ?_, jsonFilesField_payload _, (hf.length_eq).symm⟩
  rintro p r ⟨c, hc, rfl⟩
  refine ⟨c, hc, rfl, rfl, rfl, rfl, fun hstable => ?_⟩
  constructor
  · simp [hstable]
  · simp [hstable]

/-- Witness for CLAIM C4: a successful one-file run over a concrete
filesystem, with the entry-count conclusion extracted at that input by the
theorem itself. -/
theorem process_files_report_entries_witness :
    (process_files [["src", "a.txt"]]
        [FsEntry.mk ["src"] FileKind.directory none,
         FsEntry.mk ["src", "a.txt"] FileKind.regular (some [0x2014, 0x61])]
        (NormalizeOriginalConfig.mk ["src"] ["out"] ["out", "report.json"] "utf-8")
        true).result =
      Except.ok [FileReport.mk "a.txt" true 2 2] ∧
    ([FileReport.mk "a.txt" true 2 2] : List FileReport).length =
      [["src", "a.txt"]].length :=
  ⟨by decide,
    (process_files_report_entries
      [FsEntry.mk ["src"] FileKind.directory none,
       FsEntry.mk ["src", "a.txt"] FileKind.regular (some [0x2014, 0x61])]
      (NormalizeOriginalConfig.mk ["src"] ["out"] ["out", "report.json"] "utf-8")
      true [["src", "a.txt"]] [FileReport.mk "a.txt" true 2 2] (by decide)).2.2⟩

theorem processFilesGo_writes_dry (fs : List FsEntry) (cfg : NormalizeOriginalConfig) :
    ∀ files : List (List String), (processFilesGo fs cfg true files).writes = [] := by
  intro files
  induction files with
  | nil => rfl
  | cons p rest ih =>
    cases hr : readText fs p with
    | none => rw [processFilesGo_cons_none hr]
    | some c =>
      rw [processFilesGo_cons_some hr]
      simpa using ih

theorem processFilesGo_writes_ok (fs : List FsEntry) (cfg : NormalizeOriginalConfig) :
    ∀ (files : List (List String)) (reports : List FileReport),
      (processFilesGo fs cfg false files).result = Except.ok reports →
      List.Forall₂ (fun p w => ∃ c, readText fs p = some c ∧
        w = (cfg.output_dir ++ relative_to cfg.source_dir p, normalise_text c))
        files (processFilesGo fs cfg false files).writes := by
  intro files
  induction files with
  | nil =>
    intro reports _
    exact List.Forall₂.nil
  | cons p rest ih =>
    intro reports h
    cases hr : readText fs p with
    | none => rw [processFilesGo_cons_none hr] at h; simp at h
    | some c =>
      rw [processFilesGo_cons_some hr] at h ⊢
      simp only at h ⊢
      split at h
      · rename_i reps hres
        simpa using List.Forall₂.cons ⟨c, hr, rfl⟩ (ih reps hres)
      · simp at h

theorem mem_processFilesGo_writes (fs : List FsEntry) (cfg : NormalizeOriginalConfig)
    (dry : Bool) :
    ∀ (files : List (List String)) (w : List String × List Nat),
      w ∈ (processFilesGo fs cfg dry files).writes →
      ∃ p ∈ files, ∃ c, readText fs p = some c ∧
        w = (cfg.output_dir ++ relative_to cfg.source_dir p, normalise_text c) := by
  intro files
  induction files with
  | nil => intro w hw; simp [processFilesGo] at hw
  | cons p rest ih =>
    intro w hw
    cases hr : readText fs p with
    | none => rw [processFilesGo_cons_none hr] at hw; simp at hw
    | some c =>
      rw [processFilesGo_cons_some hr] at hw
      simp only [List.mem_append] at hw
      rcases hw with hw | hw
      · cases dry with
        | true => simp at hw
        | false =>
          simp only [if_neg (by decide : ¬ (false : Bool) = true), List.mem_singleton] at hw
          exact ⟨p, List.mem_cons_self p rest, c, hr, hw⟩
      · obtain ⟨q, hq, hc⟩ := ih w hw
        exact ⟨q, List.mem_cons_of_mem p hq, hc⟩

/-- CLAIM C5: the batch run writes nothing in dry-run mode while still
producing one report entry per file; outside dry-run mode a successful run
writes, in order, exactly the normalised content of each input file to the
output directory joined with the file's path relative to the source
directory; and when every input file lies below the source directory and the
source and output directories are not nested one in the other, no written
path is an input path, so input files are never modified in either mode. -/
theorem process_files_frame (fs : List FsEntry) (cfg : NormalizeOriginalConfig) :
    (∀ files : List (List String), (process_files files fs cfg true).writes = []) ∧
    (∀ (files : List (List String)) (reports : List FileReport),
      (process_files files fs cfg true).result = Except.ok reports →
      reports.length = files.length) ∧
    (∀ (files : List (List String)) (reports : List FileReport),
      (process_files files fs cfg false).result = Except.ok reports →
      List.Forall₂ (fun p w => ∃ c, readText fs p = some c ∧
        w = (cfg.output_dir ++ relative_to cfg.source_dir p, normalise_text c))
        files (process_files files fs cfg false).writes) ∧
    (∀ (dry : Bool) (files : List (List String)),
      (∀ q ∈ files, cfg.source_dir <+: q) →
      ¬ cfg.source_dir <+: cfg.output_dir →
      ¬ cfg.output_dir <+: cfg.source_dir →
      ∀ w ∈ (process_files files fs cfg dry).writes, w.1 ∉ files) := by
  refine ⟨fun files => processFilesGo_writes_dry fs cfg files,
    fun files reports h =>
      ((processFilesGo_ok_forall2 fs cfg true files reports h).length_eq).symm,
    fun files reports h => processFilesGo_writes_ok fs cfg files reports h,
    ?_⟩
  intro dry files hsrc hso hos w hw hmem
  obtain ⟨p, _, c, _, rfl⟩ := mem_processFilesGo_writes fs cfg dry files w hw
  have hout : cfg.output_dir <+: cfg.output_dir ++ relative_to cfg.source_dir p :=
    List.prefix_append _ _
  have hsrcw : cfg.source_dir <+: cfg.output_dir ++ relative_to cfg.source_dir p :=
    hsrc _ hmem
  rcases List.prefix_or_prefix_of_prefix hsrcw hout with h | h
  · exact hso h
  · exact hos h

/-- Witness for CLAIM C5: over a concrete filesystem, the written path of a
non-dry-run one-file batch is not an input path. -/
theorem process_files_frame_witness :
    (["out", "a.txt"], normalise_text [0x61]) ∈
      (process_files [["src", "a.txt"]]
        [FsEntry.mk ["src", "a.txt"] FileKind.regular (some [0x61])]
        (NormalizeOriginalConfig.mk ["src"] ["out"] ["out", "report.json"] "utf-8")
        false).writes ∧
    (["out", "a.txt"], normalise_text [0x61]).1 ∉ [["src", "a.txt"]] :=
  ⟨by decide,
    (process_files_frame
        [FsEntry.mk ["src", "a.txt"] FileKind.regular (some [0x61])]
        (NormalizeOriginalConfig.mk ["src"] ["out"] ["out", "report.json"] "utf-8")).2.2.2
      false [["src", "a.txt"]] (by decide) (by decide) (by decide)
      (["out", "a.txt"], normalise_text [0x61]) (by decide)⟩

theorem charsLtB_irrefl : ∀ l : List Char, charsLtB l l = false
  | [] => rfl
  | a :: as => by simp [charsLtB, charsLtB_irrefl as]

theorem charsLtB_cons_iff {a b : Char} {as bs : List Char} :
    charsLtB (a :: as) (b :: bs) = true ↔ (a < b ∨ (a = b ∧ charsLtB as bs = true)) := by
  simp only [charsLtB]
  split_ifs with h1 h2
  · simp [h1]
  · simp [h1, h2]
  · simp [h1, h2]

theorem charsLtB_trans :
    ∀ l1 l2 l3 : List Char, charsLtB l1 l2 = true → charsLtB l2 l3 = true →
      charsLtB l1 l3 = true := by
  intro l1
  induction l1 with
  | nil =>
    intro l2 l3 h12 h23
    cases l3 with
    | nil => cases l2 <;> simp [charsLtB] at h12 h23
    | cons c cs => simp [charsLtB]
  | cons a as ih =>
    intro l2 l3 h12 h23
    cases l2 with
    | nil => simp [charsLtB] at h12
    | cons b bs =>
      cases l3 with
      | nil => simp [charsLtB] at h23
      | cons c cs =>
        rw [charsLtB_cons_iff] at h12 h23 ⊢
        rcases h12 with h12 | ⟨rfl, h12⟩
        · rcases h23 with h23 | ⟨rfl, h23⟩
          · exact Or.inl (lt_trans h12 h23)
          · exact Or.inl h12
        · rcases h23 with h23 | ⟨rfl, h23⟩
          · exact Or.inl h23
          · exact Or.inr ⟨rfl, ih bs cs h12 h23⟩

theorem charsLtB_trichot :
    ∀ l1 l2 : List Char, charsLtB l1 l2 = true ∨ l1 = l2 ∨ charsLtB l2 l1 = true := by
  intro l1
  induction l1 with
  | nil =>
    intro l2
    cases l2 with
    | nil => exact Or.inr (Or.inl rfl)
    | cons b bs => exact Or.inl (by simp [charsLtB])
  | cons a as ih =>
    intro l2
    cases l2 with
    | nil => exact Or.inr (Or.inr (by simp [charsLtB]))
    | cons b bs =>
      rcases lt_trichotomy a b with h | h | h
      · exact Or.inl (charsLtB_cons_iff.mpr (Or.inl h))
      · subst h
        rcases ih bs with h2 | h2 | h2
        · exact Or.inl (charsLtB_cons_iff.mpr (Or.inr ⟨rfl, h2⟩))
        · exact Or.inr (Or.inl (by rw [h2]))
        · exact Or.inr (Or.inr (charsLtB_cons_iff.mpr (Or.inr ⟨rfl, h2⟩)))
      · exact Or.inr (Or.inr (charsLtB_cons_iff.mpr (Or.inl h)))

theorem strLt_irrefl (a : String) : strLt a a = false :=
  charsLtB_irrefl a.toList

theorem strLt_trans {a b c : String} (h1 : strLt a b = true) (h2 : strLt b c = true) :
    strLt a c = true :=
  charsLtB_trans a.toList b.toList c.toList h1 h2

theorem strLt_trichot (a b : String) : strLt a b = true ∨ a = b ∨ strLt b a = true := by
  rcases charsLtB_trichot a.toList b.toList with h | h | h
  · exact Or.inl h
  · refine Or.inr (Or.inl ?_)
    cases a with
    | mk da =>
      cases b with
      | mk db =>
        simp only [String.toList, String.data] at h
        rw [h]
  · exact Or.inr (Or.inr h)

theorem partsLeB_cons_iff {a b : String} {as bs : List String} :
    partsLeB (a :: as) (b :: bs) = true ↔
      (strLt a b = true ∨ (a = b ∧ partsLeB as bs = true)) := by
  simp only [partsLeB]
  split_ifs with h1 h2
  · simp [h1]
  · have h1f : strLt a b = false := by simpa using h1
    simp [h1f, h2, strLt_irrefl]
  · have h1f : strLt a b = false := by simpa using h1
    simp [h1f, h2]

theorem partsLeB_total : ∀ a b : List String, partsLeB a b = true ∨ partsLeB b a = true
  | [], _ => Or.inl rfl
  | _ :: _, [] => Or.inr rfl
  | a :: as, b :: bs => by
    rcases strLt_trichot a b with h | h | h
    · exact Or.inl (partsLeB_cons_iff.mpr (Or.inl h))
    · subst h
      rcases partsLeB_total as bs with ih | ih
      · exact Or.inl (partsLeB_cons_iff.mpr (Or.inr ⟨rfl, ih⟩))
      · exact Or.inr (partsLeB_cons_iff.mpr (Or.inr ⟨rfl, ih⟩))
    · exact Or.inr (partsLeB_cons_iff.mpr (Or.inl h))

theorem partsLeB_trans :
    ∀ a b c : List String, partsLeB a b = true → partsLeB b c = true →
      partsLeB a c = true
  | [], _, _ => fun _ _ => rfl
  | a :: as, [], _ => by intro h; simp [partsLeB] at h
  | a :: as, b :: bs, [] => by intro _ h; simp [partsLeB] at h
  | a :: as, b :: bs, c :: cs => by
    intro h1 h2
    rw [partsLeB_cons_iff] at h1 h2 ⊢
    rcases h1 with h1 | ⟨rfl, h1⟩
    · rcases h2 with h2 | ⟨rfl, h2⟩
      · exact Or.inl (strLt_trans h1 h2)
      · exact Or.inl h1
    · rcases h2 with h2 | ⟨rfl, h2⟩
      · exact Or.inl h2
      · exact Or.inr ⟨rfl, partsLeB_trans as bs cs h1 h2⟩

/-- CLAIM C6 (amended): `gather_files` returns exactly the regular files
anywhere strictly below the source directory whose final name ends in the
`.txt` extension, with directories and non-file entries excluded, sorted
lexicographically by the sequence of path components — the order Python
applies to path objects — and as a permutation of the matching entries.  The
component order differs from full-path-string order (see the
counterexample), so the claim's "sorted lexicographically by full path" holds
only componentwise. -/
theorem gather_files_spec (fs : List FsEntry) (src : List String) :
    (∀ p, p ∈ gather_files fs src ↔ ∃ e ∈ fs, e.path = p ∧ e.kind = FileKind.regular ∧
      src <+: p ∧ p ≠ src ∧ endsWithTxt (lastName p) = true) ∧
    List.Pairwise partsLe (gather_files fs src) ∧
    List.Perm (gather_files fs src)
      (((rglobTxt fs src).filter (fun e => decide (e.kind = FileKind.regular))).map
        FsEntry.path) := by
  haveI : IsTotal (List String) partsLe := ⟨fun a b => partsLeB_total a b⟩
  haveI : IsTrans (List String) partsLe := ⟨fun a b c => partsLeB_trans a b c⟩
  refine ⟨?_, List.sorted_insertionSort partsLe _, List.perm_insertionSort partsLe _⟩
  intro p
  show p ∈ List.insertionSort partsLe _ ↔ _
  rw [(List.perm_insertionSort partsLe _).mem_iff]
  rw [List.mem_map]
  constructor
  · rintro ⟨e, hmem, rfl⟩
    rw [List.mem_filter] at hmem
    obtain ⟨hmem2, hq⟩ := hmem
    rw [rglobTxt, List.mem_filter] at hmem2
    obtain ⟨hefs, hg⟩ := hmem2
    rw [Bool.and_eq_true, Bool.and_eq_true] at hg
    obtain ⟨⟨hpre, hne⟩, hext⟩ := hg
    exact ⟨e, hefs, rfl, of_decide_eq_true hq, List.isPrefixOf_iff_prefix.mp hpre,
      of_decide_eq_true hne, hext⟩
  · rintro ⟨e, hefs, rfl, hkind, hpre, hne, hext⟩
    refine ⟨e, ?_, rfl⟩
    rw [List.mem_filter]
    refine ⟨?_, decide_eq_true hkind⟩
    rw [rglobTxt, List.mem_filter]
    refine ⟨hefs, ?_⟩
    rw [Bool.and_eq_true, Bool.and_eq_true]
    exact ⟨⟨ List.isPrefixOf_iff_prefix.mpr hpre, decide_eq_true hne⟩, hext⟩

/-- Witness for CLAIM C6: over a concrete tree, a matching regular file is a
member of the returned list and the list is sorted componentwise. -/
theorem gather_files_spec_witness :
    ["r", "a", "b.txt"] ∈ gather_files
      [FsEntry.mk ["r"] FileKind.directory none,
       FsEntry.mk ["r", "a-b"] FileKind.directory none,
       FsEntry.mk ["r", "a-b", "x.txt"] FileKind.regular (some []),
       FsEntry.mk ["r", "a"] FileKind.directory none,
       FsEntry.mk ["r", "a", "b.txt"] FileKind.regular (some [])] ["r"] ∧
    List.Pairwise partsLe (gather_files
      [FsEntry.mk ["r"] FileKind.directory none,
       FsEntry.mk ["r", "a-b"] FileKind.directory none,
       FsEntry.mk ["r", "a-b", "x.txt"] FileKind.regular (some []),
       FsEntry.mk ["r", "a"] FileKind.directory none,
       FsEntry.mk ["r", "a", "b.txt"] FileKind.regular (some [])] ["r"]) :=
  ⟨((gather_files_spec
      [FsEntry.mk ["r"] FileKind.directory none,
       FsEntry.mk ["r", "a-b"] FileKind.directory none,
       FsEntry.mk ["r", "a-b", "x.txt"] FileKind.regular (some []),
       FsEntry.mk ["r", "a"] FileKind.directory none,
       FsEntry.mk ["r", "a", "b.txt"] FileKind.regular (some [])] ["r"]).1 _).mpr
    (by decide),
   (gather_files_spec
      [FsEntry.mk ["r"] FileKind.directory none,
       FsEntry.mk ["r", "a-b"] FileKind.directory none,
       FsEntry.mk ["r", "a-b", "x.txt"] FileKind.regular (some []),
       FsEntry.mk ["r", "a"] FileKind.directory none,
       FsEntry.mk ["r", "a", "b.txt"] FileKind.regular (some [])] ["r"]).2.1⟩

/-- Counterexample for CLAIM C6 as stated: on a tree holding `r/a/b.txt` and
`r/a-b/x.txt`, `gather_files` returns `r/a/b.txt` first, yet by full-path
string comparison `r/a-b/x.txt` is strictly smaller (the hyphen sorts before
the separator), so the result is not sorted lexicographically by full
path. -/
theorem gather_files_not_sorted_by_full_path :
    gather_files
      [FsEntry.mk ["r"] FileKind.directory none,
       FsEntry.mk ["r", "a-b"] FileKind.directory none,
       FsEntry.mk ["r", "a-b", "x.txt"] FileKind.regular (some []),
       FsEntry.mk ["r", "a"] FileKind.directory none,
       FsEntry.mk ["r", "a", "b.txt"] FileKind.regular (some [])] ["r"] =
      [["r", "a", "b.txt"], ["r", "a-b", "x.txt"]] ∧
    ¬ fullPathLe ["r", "a", "b.txt"] ["r", "a-b", "x.txt"] := by
  constructor
  · decide
  · decide

/-- Witness for CLAIM C3: the removal equations and the unnamed-kept clause
evaluated at concrete inputs. -/
theorem variation_selector_removal_witness :
    removeVariationSelectors [0x61, 0xFE0F, 0x62] =
        removeVariationSelectors [0x61] ++ removeVariationSelectors [0x62] ∧
      removeVariationSelectors [0xFE0F, 0x62, 0x63] =
        removeVariationSelectors [0xFE0F] ++ 0x62 :: removeVariationSelectors [0x63] ∧
      is_variation_selector 0x62 = false :=
  ⟨variation_selector_removal.1 [0x61] 0xFE0F [0x62] (by decide),
   variation_selector_removal.2.1 [0xFE0F] 0x62 [0x63] (by decide),
   variation_selector_removal.2.2.1 0x62 (by decide)⟩

/-- CLAIM C7: in a run that is not cancelled at the first interactive prompt
(in particular in the default non-interactive mode), a missing or
non-directory source path makes `main` exit with status 1 and write no
report, and an existing source directory with no `.txt` files makes it exit
with status 0 and write no report. -/
theorem main_exit_codes (cfg : NormalizeOriginalConfig) (inter dryArg : Bool)
    (stdin : List String) (fs : List FsEntry)
    (hrun : inter = false ∨ prompt_yes_no (stdin.getD 0 "") true = true) :
    (sourceDirOk fs cfg.source_dir = false →
      (mainModel cfg inter dryArg stdin fs).exitCode = 1 ∧
      (mainModel cfg inter dryArg stdin fs).report = none) ∧
    (sourceDirOk fs cfg.source_dir = true →
      gather_files fs cfg.source_dir = [] →
      (mainModel cfg inter dryArg stdin fs).exitCode = 0 ∧
      (mainModel cfg inter dryArg stdin fs).report = none) := by
  have hc1 : cancelledRun inter stdin = false := by
    rcases hrun with h | h
    · simp only [cancelledRun, h, Bool.false_and]
    · simp only [cancelledRun]
      rw [h]
      simp only [Bool.not_true, Bool.and_false]
  constructor
  · intro hdir
    simp [mainModel, hc1, hdir]
  · intro hdir hempty
    simp [mainModel, hc1, hdir, hempty]

/-- Witness for CLAIM C7: with an empty filesystem the source directory is
missing, so the concrete run exits 1 with no report. -/
theorem main_exit_codes_witness :
    (mainModel (NormalizeOriginalConfig.mk ["src"] ["out"] ["out", "report.json"] "utf-8")
      false false [] []).exitCode = 1 ∧
    (mainModel (NormalizeOriginalConfig.mk ["src"] ["out"] ["out", "report.json"] "utf-8")
      false false [] []).report = none :=
  (main_exit_codes (NormalizeOriginalConfig.mk ["src"] ["out"] ["out", "report.json"] "utf-8")
    false false [] [] (Or.inl rfl)).1 (by decide)

/-- CLAIM C8: declining the first interactive prompt makes `main` return exit
status 0 and do nothing further: no path is read, nothing is written, no
report is produced and no exception is raised (the directories of
`ensure_directories` were already created before the prompt). -/
theorem main_interactive_decline (cfg : NormalizeOriginalConfig) (dryArg : Bool)
    (stdin : List String) (fs : List FsEntry)
    (h : prompt_yes_no (stdin.getD 0 "") true = false) :
    mainModel cfg true dryArg stdin fs =
      MainResult.mk 0 (ensure_directories cfg) [] [] none none := by
  have hc : cancelledRun true stdin = true := by
    simp only [cancelledRun]
    rw [h]
    rfl
  simp [mainModel, hc]

/-- Witness for CLAIM C8: a concrete declined interactive run. -/
theorem main_interactive_decline_witness :
    mainModel (NormalizeOriginalConfig.mk ["src"] ["out"] ["out", "report.json"] "utf-8")
        true false ["n"] [] =
      MainResult.mk 0
        (ensure_directories
          (NormalizeOriginalConfig.mk ["src"] ["out"] ["out", "report.json"] "utf-8"))
        [] [] none none :=
  main_interactive_decline
    (NormalizeOriginalConfig.mk ["src"] ["out"] ["out", "report.json"] "utf-8")
    false ["n"] [] (by decide)

/-- CLAIM C9: a failing read aborts the batch: when every file before `p` is
readable and reading `p` fails, `process_files` propagates the error for `p`
and reads exactly the files up to and including `p`, touching none of the
remaining ones; and whenever the batch of a run errors, `main` writes no
report at all. -/
theorem read_failure_aborts :
    (∀ (fs : List FsEntry) (cfg : NormalizeOriginalConfig) (dry : Bool)
        (xs : List (List String)) (p : List String) (ys : List (List String)),
      (∀ x ∈ xs, ∃ c, readText fs x = some c) → readText fs p = none →
      (process_files (xs ++ p :: ys) fs cfg dry).result = Except.error p ∧
      (process_files (xs ++ p :: ys) fs cfg dry).reads = xs ++ [p]) ∧
    (∀ (cfg : NormalizeOriginalConfig) (inter dryArg : Bool) (stdin : List String)
        (fs : List FsEntry) (q : List String),
      (process_files (gather_files fs cfg.source_dir) fs cfg
          (effectiveDry inter dryArg stdin)).result = Except.error q →
      (mainModel cfg inter dryArg stdin fs).report = none) := by
  constructor
  · intro fs cfg dry xs
    induction xs with
    | nil =>
      intro p ys _ hp
      simp [process_files, processFilesGo_cons_none hp]
    | cons x xs ih =>
      intro p ys hxs hp
      obtain ⟨c, hc⟩ := hxs x (List.mem_cons_self x xs)
      have hrest := ih p ys (fun z hz => hxs z (List.mem_cons_of_mem x hz)) hp
      simp only [process_files, List.cons_append] at hrest ⊢
      rw [processFilesGo_cons_some hc]
      constructor
      · simp [hrest.1]
      · simp [hrest.2]
  · intro cfg inter dryArg stdin fs q herr
    by_cases h1 : cancelledRun inter stdin = true
    · simp [mainModel, h1]
    · have h1f : cancelledRun inter stdin = false := by
        simpa using h1
      by_cases h2 : sourceDirOk fs cfg.source_dir = true
      · by_cases h3 : (gather_files fs cfg.source_dir).isEmpty = true
        · simp [mainModel, h1f, h2, h3]
        · have h3f : (gather_files fs cfg.source_dir).isEmpty = false := by
            simpa using h3
          simp [mainModel, h1f, h2, h3f, herr]
      · have h2f : sourceDirOk fs cfg.source_dir = false := by
          simpa using h2
        simp [mainModel, h1f, h2f]

/-- Witness for CLAIM C9: a concrete one-file batch whose only file is
unreadable errors on that file after reading only it. -/
theorem read_failure_aborts_witness :
    (process_files ([] ++ ["src", "bad.txt"] :: [])
        [FsEntry.mk ["src", "bad.txt"] FileKind.regular none]
        (NormalizeOriginalConfig.mk ["src"] ["out"] ["out", "report.json"] "utf-8")
        false).result = Except.error ["src", "bad.txt"] ∧
    (process_files ([] ++ ["src", "bad.txt"] :: [])
        [FsEntry.mk ["src", "bad.txt"] FileKind.regular none]
        (NormalizeOriginalConfig.mk ["src"] ["out"] ["out", "report.json"] "utf-8")
        false).reads = [] ++ [["src", "bad.txt"]] :=
  read_failure_aborts.1 [FsEntry.mk ["src", "bad.txt"] FileKind.regular none]
    (NormalizeOriginalConfig.mk ["src"] ["out"] ["out", "report.json"] "utf-8")
    false [] ["src", "bad.txt"] [] (by simp) (by decide)

/-- CLAIM C10: every invocation of `main`, whatever its mode, console input,
filesystem and outcome — dry runs, cancelled interactive runs, runs failing
the source-directory check, and runs finding no files included — creates via
`ensure_directories` exactly the configured output directory and the parent
directory of the report path, before the prompts and before the
source-directory check. -/
theorem main_always_ensures_directories (cfg : NormalizeOriginalConfig)
    (inter dryArg : Bool) (stdin : List String) (fs : List FsEntry) :
    (mainModel cfg inter dryArg stdin fs).createdDirs = ensure_directories cfg ∧
    ensure_directories cfg = [cfg.output_dir, dirParent cfg.report_path] := by
  refine ⟨?_, rfl⟩
  simp only [mainModel]
  split
  · rfl
  · split
    · rfl
    · split
      · rfl
      · split <;> rfl
